import Mathlib

/-!
Verification development for the AGAS bootstrap subsystem of the hpx
repository excerpt: the Global Address codec, the boot barrier
(`big_boot_barrier`), the root router registration path, and the
`reverse` / `reverse_copy` parallel algorithms.

The excerpt ships only the header `hpx/runtime/agas/router/big_boot_barrier.hpp`
for the barrier (its member functions `apply`, `wait`, `notify` and the
router/address types are declared but their bodies are not part of the
excerpt), so those operations are modelled from the specification text;
each such definition carries a doc comment starting `Modelled from the
spec:`.  The `reverse` algorithms are embedded directly from
`libs/parallelism/algorithms/include/hpx/parallel/algorithms/reverse.hpp`.
-/

namespace HpxSpec

/-- Modelled from the spec: `hpx/runtime/naming/address.hpp` is not part of
the excerpt (the barrier header only includes it).  A Global Address carries
`locality_id` (owning process), `local_handle` (object id within that
locality) and `component_type` (dispatch tag); it is an immutable value with
structural equality. -/
structure GlobalAddress where
  locality_id : Nat
  local_handle : Nat
  component_type : Nat
deriving DecidableEq, Repr

/-- Little-endian base-256 rendering of `x` into exactly `w` bytes. -/
def toLEBytes : Nat → Nat → List Nat
  | 0, _ => []
  | w + 1, x => (x % 256) :: toLEBytes w (x / 256)

/-- Value denoted by a little-endian base-256 byte list. -/
def fromLEBytes : List Nat → Nat
  | [] => 0
  | b :: t => b + 256 * fromLEBytes t

/-- Modelled from the spec: a Global Address is valid when each of its three
fields fits the fixed-width (8-byte) wire field used by the codec. -/
def validAddress (a : GlobalAddress) : Prop :=
  a.locality_id < 2 ^ 64 ∧ a.local_handle < 2 ^ 64 ∧ a.component_type < 2 ^ 64

instance : DecidablePred validAddress := fun a => by
  unfold validAddress; infer_instance

/-- Modelled from the spec: the codec's only error condition is
malformed-input deserialization, reported as a `DecodeError`. -/
inductive DecodeError
  | malformed
deriving DecidableEq, Repr

/-- Modelled from the spec: `encode` serializes a Global Address to a byte
sequence — three 8-byte little-endian fields, 24 bytes in all. -/
def encode (a : GlobalAddress) : List Nat :=
  toLEBytes 8 a.locality_id ++ toLEBytes 8 a.local_handle ++ toLEBytes 8 a.component_type

/-- Modelled from the spec: `decode` deserializes a byte sequence back into a
Global Address, failing with a `DecodeError` on malformed input (wrong length
or an out-of-range byte). -/
def decode (bs : List Nat) : Except DecodeError GlobalAddress :=
  if bs.length = 24 ∧ ∀ b ∈ bs, b < 256 then
    Except.ok
      ⟨fromLEBytes (bs.take 8), fromLEBytes ((bs.drop 8).take 8),
        fromLEBytes (bs.drop 16)⟩
  else Except.error DecodeError.malformed

/-- Router role per spec §3 (`router_mode`): fixed at construction; matches the header's
`const router_mode router_type` field. -/
inductive router_mode
  | bootstrap_root
  | hosted_subordinate
deriving DecidableEq, Repr

/-- Runtime role per spec §3 (`runtime_mode`); matches the header's
`const runtime_mode runtime_type` field. -/
inductive runtime_mode
  | console
  | worker
  | connect
deriving DecidableEq, Repr

/-- Modelled from the spec: error taxonomy of the bootstrap path (§7);
the member function bodies that raise these are not in the excerpt. -/
inductive BootError
  | BootstrapTimeout
  | SendError
deriving DecidableEq, Repr

/-- Modelled from the spec: the router's registration error (§4.2); the
router implementation is not in the excerpt. -/
inductive RegisterError
  | DuplicateRegistration
deriving DecidableEq, Repr

/-- State of `big_boot_barrier` (header lines 24-56).  The header declares
`router_type`, `runtime_type`, `bootstrap_agas`, the condition variable, the
mutex and `connected`; the mutex and condition variable are modelled by
atomic state transitions.  `counter` and `expected_count` are the root-only
registration counter and configured participant count of spec §3 (the
corresponding fields live behind the non-excerpted implementation). -/
structure big_boot_barrier where
  router_type : router_mode
  runtime_type : runtime_mode
  bootstrap_agas : GlobalAddress
  connected : Bool
  counter : Nat
  expected_count : Nat
deriving DecidableEq, Repr

/-- Modelled from the spec: `big_boot_barrier::notify` is declared at header
line 55 but its body is not in the excerpt.  Per §4.3 it sets
`connected := true` — unconditionally on a subordinate, and on the root only
once the registration counter has reached `expected_count` — and broadcasts
the condition variable so every parked waiter is released. -/
def big_boot_barrier.notify (b : big_boot_barrier) : big_boot_barrier :=
  match b.router_type with
  | router_mode.hosted_subordinate => { b with connected := true }
  | router_mode.bootstrap_root =>
      if b.expected_count ≤ b.counter then { b with connected := true } else b

/-- Modelled from the spec: `big_boot_barrier::wait` is declared at header
line 53 but its body is not in the excerpt.  Per §4.3 it blocks on the
condition variable until `connected` is true, and fails with
`BootstrapTimeout` if the configured bootstrap timeout elapses first.  In
this embedding `wait` is evaluated at the barrier state observed when the
waiter is released or the deadline expires: `ok` when `connected` holds,
`BootstrapTimeout` when the timeout fires with `connected` still false. -/
def big_boot_barrier.wait (b : big_boot_barrier) : Except BootError Unit :=
  if b.connected then Except.ok () else Except.error BootError.BootstrapTimeout

/-- Modelled from the spec: the transport collaborator (§6) — it either
accepts a message for a target locality or rejects it with a send error. -/
structure Transport where
  accepts : Nat → List Nat → Bool

/-- Modelled from the spec: `big_boot_barrier::apply` is declared at header
lines 48-51 but its body is not in the excerpt.  Per §4.3 it serializes the
payload together with the target address, submits the message over a
borrowed connection on the dedicated i/o context, and returns as soon as the
submission result is known — no reply is awaited; when the transport does
not accept the message it fails with `SendError`. -/
def big_boot_barrier.apply (tr : Transport) (payload : List Nat)
    (addr : GlobalAddress) : Except BootError Unit :=
  if tr.accepts addr.locality_id (payload ++ encode addr) then Except.ok ()
  else Except.error BootError.SendError

/-- Modelled from the spec: a subordinate locality's bootstrap attempt (§2):
`apply` the registration to the root, then `wait` on the local barrier.  An
error from `apply` aborts the attempt before `wait` is reached. -/
def bootstrapAttempt (tr : Transport) (payload : List Nat)
    (addr : GlobalAddress) (b : big_boot_barrier) : Except BootError Unit := do
  big_boot_barrier.apply tr payload addr
  b.wait

/-- Modelled from the spec: the root locality's state — its barrier, the
authoritative registration table (`locality_id` to address, append-only
during bootstrap), and the acknowledgement messages scheduled to registered
subordinates. -/
structure RootState where
  barrier : big_boot_barrier
  table : List (Nat × GlobalAddress)
  acks : List Nat
deriving DecidableEq, Repr

/-- Modelled from the spec: `register(locality_id, address)` (§4.2), root
only, implementation not in the excerpt.  It rejects a duplicate
`locality_id` with `DuplicateRegistration`, leaving the state untouched;
otherwise it appends the mapping, bumps the registration counter and, when
the counter reaches `expected_count`, triggers the barrier's `notify` and
schedules acknowledgements to every registered subordinate. -/
def registerLocality (s : RootState) (lid : Nat) (a : GlobalAddress) :
    Except RegisterError Unit × RootState :=
  if s.table.any (fun p => p.1 == lid) then
    (Except.error RegisterError.DuplicateRegistration, s)
  else
    let table : List (Nat × GlobalAddress) := s.table ++ [(lid, a)]
    let b : big_boot_barrier := { s.barrier with counter := s.barrier.counter + 1 }
    if b.counter = b.expected_count then
      (Except.ok (),
        { barrier := b.notify, table := table, acks := table.map Prod.fst })
    else
      (Except.ok (), { s with barrier := b, table := table })

/-- Modelled from the spec: the operations that may touch a locality's
barrier and (on the root) its registration table during one process
lifetime. -/
inductive BootOp
  | register (lid : Nat) (a : GlobalAddress)
  | notify
  | applyOp (accepted : Bool)
  | waitOp
deriving DecidableEq, Repr

/-- Modelled from the spec: effect of one operation on the root state.
`wait` observes but never writes; `apply` hands the send to the i/o context
and leaves the barrier and table alone. -/
def stepOp (s : RootState) (op : BootOp) : RootState :=
  match op with
  | BootOp.register lid a => (registerLocality s lid a).2
  | BootOp.notify => { s with barrier := s.barrier.notify }
  | BootOp.applyOp _ => s
  | BootOp.waitOp => s

/-- Run a sequence of operations from a starting state. -/
def runOps (s : RootState) (ops : List BootOp) : RootState :=
  ops.foldl stepOp s

/-- Fold a list of registrations through `registerLocality`, keeping the
resulting state (an erroring registration leaves the state unchanged). -/
def runRegs (s : RootState) (regs : List (Nat × GlobalAddress)) : RootState :=
  regs.foldl (fun t r => (registerLocality t r.1 r.2).2) s

/-- Modelled from the spec: the root's barrier as created at runtime start —
role fixed at construction, `connected` initially false, registration
counter zero, `expected_count` from configuration. -/
def initBarrier (e : Nat) : big_boot_barrier :=
  { router_type := router_mode.bootstrap_root
  , runtime_type := runtime_mode.console
  , bootstrap_agas := ⟨0, 0, 0⟩
  , connected := false
  , counter := 0
  , expected_count := e }

/-- The root locality's state at runtime start. -/
def initRoot (e : Nat) : RootState :=
  { barrier := initBarrier e, table := [], acks := [] }

/-- The `connected` flags seen along a run, starting state included. -/
def connTrace (s : RootState) : List BootOp → List Bool
  | [] => [s.barrier.connected]
  | op :: ops => s.barrier.connected :: connTrace (stepOp s op) ops

/-- Number of false-to-true transitions between adjacent trace entries. -/
def rises : List Bool → Nat
  | a :: b :: t => (if a = false ∧ b = true then 1 else 0) + rises (b :: t)
  | _ => 0

/-- Number of true-to-false transitions between adjacent trace entries. -/
def falls : List Bool → Nat
  | a :: b :: t => (if a = true ∧ b = false then 1 else 0) + falls (b :: t)
  | _ => 0

universe u

variable {α : Type u}

/-- Effect of `std::iter_swap(first + i, first + j)` on the contents of a
range: swap the values at positions `i` and `j`. -/
def swapIdx (l : List α) (i j : Nat) : List α :=
  match l[i]?, l[j]? with
  | some x, some y => (l.set i y).set j x
  | _, _ => l

/-- Embedding of `std::reverse(first, last)` as called by
`detail::reverse::sequential` (reverse.hpp lines 44-50): the two-pointer
swap loop `while (first != last && first != --last) iter_swap(first++,
last);`, expressed on offsets `i = first - begin`, `j = last - begin` into
the range contents. -/
def stdReverseLoop (l : List α) (i j : Nat) : List α :=
  if i + 1 < j then stdReverseLoop (swapIdx l i (j - 1)) (i + 1) (j - 1)
  else l
termination_by j - i
decreasing_by omega

/-- The full `std::reverse` over a whole range. -/
def stdReverse (l : List α) : List α := stdReverseLoop l 0 l.length

/-- Embedding of `detail::reverse::sequential` (reverse.hpp lines 44-50):
`std::reverse(first, last); return last;` — the mutated contents together
with the returned iterator as an offset from `first`. -/
def reverseSequential (l : List α) : List α × Nat := (stdReverse l, l.length)

/-- One execution of the parallel path's `for_each` body (reverse.hpp lines
62-72): position `i` of `first` is zipped with position `i` of
`reverse_iterator(last)`, i.e. position `n - 1 - i` of the range, and the
two elements are swapped. -/
def parSwapAt (l : List α) (i : Nat) : List α := swapIdx l i (l.length - 1 - i)

/-- Embedding of `detail::reverse::parallel` (reverse.hpp lines 52-74): the
`for_each_n` over the zip of `first` and `reverse_iterator(last)` runs the
swap body once for each of the first `distance(first, last) / 2` zip
positions. -/
def parReverseLoop (l : List α) : Nat → Nat → List α
  | _, 0 => l
  | i, k + 1 => parReverseLoop (parSwapAt l i) (i + 1) k

/-- The parallel `reverse` path over a whole range. -/
def parReverse (l : List α) : List α := parReverseLoop l 0 (l.length / 2)

/-- Embedding of the parallel branch of `reverse` (reverse.hpp lines 52-74):
mutated contents plus the returned iterator `last` (the conversion lambda
returns `last` unconditionally). -/
def reverseParallel (l : List α) : List α × Nat := (parReverse l, l.length)

/-- Write log of the `sequential_reverse_copy` loop (reverse.hpp lines
141-145): `iter` starts at `last` and each step executes
`*dest++ = *--iter`, appending the value at the decremented position to the
destination.  `d` is only read on an out-of-range index, which the loop
never produces. -/
def revCopyLoop (src : List α) (d : α) : Nat → List α → List α
  | 0, out => out
  | iter + 1, out => revCopyLoop src d iter (out ++ [src.getD iter d])

/-- Embedding of `sequential_reverse_copy(first, last, dest)` (reverse.hpp
lines 137-147): the written destination range together with the returned
`in_out_result{last, dest}` as offsets — `last` as an offset from `first`,
and how far `dest` advanced. -/
def sequential_reverse_copy (src : List α) (d : α) : List α × Nat × Nat :=
  let out := revCopyLoop src d src.length []
  (out, src.length, out.length)

theorem toLEBytes_length (w x : Nat) : (toLEBytes w x).length = w := by
  induction w generalizing x with
  | zero => rfl
  | succ w ih => simp [toLEBytes, ih]

theorem toLEBytes_lt (w x : Nat) : ∀ b ∈ toLEBytes w x, b < 256 := by
  induction w generalizing x with
  | zero => intro b hb; simp [toLEBytes] at hb
  | succ w ih =>
    intro b hb
    simp only [toLEBytes, List.mem_cons] at hb
    rcases hb with h | h
    · subst h; exact Nat.mod_lt x (by norm_num)
    · exact ih _ b h

theorem fromLEBytes_toLEBytes (w x : Nat) (h : x < 256 ^ w) :
    fromLEBytes (toLEBytes w x) = x := by
  induction w generalizing x with
  | zero =>
    simp [toLEBytes, fromLEBytes]
    omega
  | succ w ih =>
    have hdiv : x / 256 < 256 ^ w := by
      rw [Nat.div_lt_iff_lt_mul (by norm_num)]
      calc x < 256 ^ (w + 1) := h
        _ = 256 ^ w * 256 := by rw [Nat.pow_succ]
    simp only [toLEBytes, fromLEBytes, ih _ hdiv]
    omega

theorem encode_length (a : GlobalAddress) : (encode a).length = 24 := by
  simp [encode, toLEBytes_length]

theorem encode_bytes_lt (a : GlobalAddress) : ∀ b ∈ encode a, b < 256 := by
  intro b hb
  simp only [encode, List.mem_append] at hb
  rcases hb with (h | h) | h
  · exact toLEBytes_lt 8 _ b h
  · exact toLEBytes_lt 8 _ b h
  · exact toLEBytes_lt 8 _ b h

theorem decode_encode (a : GlobalAddress) (h : validAddress a) :
    decode (encode a) = Except.ok a := by
  obtain ⟨h1, h2, h3⟩ := h
  have hpow : (2 : Nat) ^ 64 = 256 ^ 8 := by norm_num
  have l1 : (toLEBytes 8 a.locality_id).length = 8 := toLEBytes_length ..
  have l2 : (toLEBytes 8 a.local_handle).length = 8 := toLEBytes_length ..
  have ht : (encode a).take 8 = toLEBytes 8 a.locality_id := by
    rw [encode, List.append_assoc]
    exact List.take_left' l1
  have hd8 : (encode a).drop 8
      = toLEBytes 8 a.local_handle ++ toLEBytes 8 a.component_type := by
    rw [encode, List.append_assoc]
    exact List.drop_left' l1
  have ht2 : ((encode a).drop 8).take 8 = toLEBytes 8 a.local_handle := by
    rw [hd8]
    exact List.take_left' l2
  have hd16 : (encode a).drop 16 = toLEBytes 8 a.component_type := by
    have hlen : (toLEBytes 8 a.locality_id ++ toLEBytes 8 a.local_handle).length
        = 16 := by
      simp [l1, l2]
    rw [encode]
    exact List.drop_left' hlen
  rw [decode, if_pos ⟨encode_length a, encode_bytes_lt a⟩, ht, ht2, hd16,
    fromLEBytes_toLEBytes 8 _ (by rw [← hpow]; exact h1),
    fromLEBytes_toLEBytes 8 _ (by rw [← hpow]; exact h2),
    fromLEBytes_toLEBytes 8 _ (by rw [← hpow]; exact h3)]

/-- Claim C5: Global Address serialization round-trips — for every valid
address `a`, `decode (encode a) = ok a`; `decode` fails only with a
`DecodeError`, and only on input bytes no valid address encodes to. -/
theorem C5_decode_encode_roundtrip :
    (∀ a : GlobalAddress, validAddress a → decode (encode a) = Except.ok a) ∧
    (∀ (bs : List Nat) (e : DecodeError), decode bs = Except.error e →
      e = DecodeError.malformed) ∧
    (∀ (bs : List Nat) (e : DecodeError), decode bs = Except.error e →
      ∀ a : GlobalAddress, validAddress a → encode a ≠ bs) := by
  refine ⟨fun a h => decode_encode a h, fun bs e _ => by cases e; rfl, ?_⟩
  intro bs e hd a ha heq
  rw [← heq, decode_encode a ha] at hd
  exact Except.noConfusion hd

/-- Witness for C5 at the concrete address `(3, 5, 7)`. -/
theorem C5_decode_encode_roundtrip_witness :
    validAddress ⟨3, 5, 7⟩ ∧ decode (encode ⟨3, 5, 7⟩) = Except.ok ⟨3, 5, 7⟩ :=
  ⟨by decide, C5_decode_encode_roundtrip.1 ⟨3, 5, 7⟩ (by decide)⟩

theorem notify_connected_of_connected (b : big_boot_barrier)
    (h : b.connected = true) : b.notify.connected = true := by
  unfold big_boot_barrier.notify
  cases hb : b.router_type
  · dsimp only
    split <;> simp [h]
  · rfl

theorem notify_connected_of_ge (b : big_boot_barrier)
    (h : b.expected_count ≤ b.counter) : b.notify.connected = true := by
  unfold big_boot_barrier.notify
  cases hb : b.router_type
  · dsimp only
    rw [if_pos h]
  · rfl

theorem notify_noop_of_connected (b : big_boot_barrier)
    (h : b.connected = true) : b.notify = b := by
  cases b with
  | mk rt rm ba c cnt e =>
    cases h
    unfold big_boot_barrier.notify
    cases rt
    · dsimp only
      split <;> rfl
    · rfl

/-- Counterexample to C3 as stated: on the root's barrier at runtime start
with `expected_count = 1` and no registration yet delivered, a single
`notify` (`N = 1`) leaves the barrier unconnected, because the root's
`notify` path is gated by the registration counter. -/
theorem C3_counterexample :
    ¬ ((initBarrier 1).notify.connected = true) := by
  decide

/-- Claim C3 (amended): for every `N ≥ 1`, on a barrier whose `notify` path
is ungated — a subordinate barrier, or a root barrier whose registration
counter has reached `expected_count` — calling `notify` `N` times leaves the
barrier CONNECTED and a subsequent `wait` returns without blocking or
erroring; and on every barrier, a `notify` issued after the barrier is
already CONNECTED is a no-op. -/
theorem C3_notify_idempotent (b : big_boot_barrier) (N : Nat) (hN : 1 ≤ N)
    (hgate : b.router_type = router_mode.hosted_subordinate
      ∨ b.expected_count ≤ b.counter) :
    (big_boot_barrier.notify^[N] b).connected = true
    ∧ (big_boot_barrier.notify^[N] b).wait = Except.ok ()
    ∧ ∀ c : big_boot_barrier, c.connected = true →
        big_boot_barrier.notify c = c := by
  obtain ⟨k, rfl⟩ : ∃ k, N = k + 1 := ⟨N - 1, by omega⟩
  have h1 : b.notify.connected = true := by
    rcases hgate with hsub | hge
    · unfold big_boot_barrier.notify
      rw [hsub]
    · exact notify_connected_of_ge b hge
  have h2 : big_boot_barrier.notify^[k + 1] b
      = b.notify := by
    rw [Function.iterate_succ_apply]
    exact Function.iterate_fixed (notify_noop_of_connected _ h1) k
  refine ⟨by rw [h2]; exact h1, ?_, fun c hc => notify_noop_of_connected c hc⟩
  rw [h2, big_boot_barrier.wait, if_pos h1]

/-- Witness for C3 (amended) at a concrete subordinate barrier with `N = 2`. -/
theorem C3_notify_idempotent_witness :
    (big_boot_barrier.notify^[2]
      ⟨router_mode.hosted_subordinate, runtime_mode.worker, ⟨0, 0, 0⟩,
        false, 0, 3⟩).connected = true
    ∧ (big_boot_barrier.notify^[2]
      ⟨router_mode.hosted_subordinate, runtime_mode.worker, ⟨0, 0, 0⟩,
        false, 0, 3⟩).wait = Except.ok () :=
  ⟨(C3_notify_idempotent _ 2 (by decide) (Or.inl rfl)).1,
    (C3_notify_idempotent _ 2 (by decide) (Or.inl rfl)).2.1⟩

/-- Claim C7: router registration is first-wins and atomic on error — a
`register` for a fresh `locality_id` succeeds and inserts the mapping, and
any `register` for a `locality_id` already in the table fails with
`DuplicateRegistration` and returns the state completely unchanged, the
first mapping still present. -/
theorem C7_register_first_wins (s : RootState) (lid : Nat) (a : GlobalAddress)
    (hfresh : ∀ p ∈ s.table, p.1 ≠ lid) :
    (registerLocality s lid a).1 = Except.ok ()
    ∧ (lid, a) ∈ (registerLocality s lid a).2.table
    ∧ ∀ (t : RootState) (a₂ : GlobalAddress), (lid, a) ∈ t.table →
        registerLocality t lid a₂
          = (Except.error RegisterError.DuplicateRegistration, t)
        ∧ (lid, a) ∈ t.table := by
  have hany : s.table.any (fun p => p.1 == lid) = false := by
    simp only [List.any_eq_false]
    intro p hp
    simpa using hfresh p hp
  refine ⟨?_, ?_, ?_⟩
  · rw [registerLocality, hany, if_neg Bool.false_ne_true]
    dsimp only
    split <;> rfl
  · rw [registerLocality, hany, if_neg Bool.false_ne_true]
    dsimp only
    split <;> simp
  · intro t a₂ hmem
    have hany₂ : t.table.any (fun p => p.1 == lid) = true := by
      rw [List.any_eq_true]
      exact ⟨(lid, a), hmem, by simp⟩
    exact ⟨by rw [registerLocality, hany₂]; rfl, hmem⟩

/-- Witness for C7: a fresh registration into the empty table followed by a
duplicate attempt. -/
theorem C7_register_first_wins_witness :
    (registerLocality (initRoot 3) 7 ⟨1, 2, 3⟩).1 = Except.ok ()
    ∧ (7, (⟨1, 2, 3⟩ : GlobalAddress))
        ∈ (registerLocality (initRoot 3) 7 ⟨1, 2, 3⟩).2.table :=
  ⟨(C7_register_first_wins (initRoot 3) 7 ⟨1, 2, 3⟩ (by simp [initRoot])).1,
    (C7_register_first_wins (initRoot 3) 7 ⟨1, 2, 3⟩ (by simp [initRoot])).2.1⟩

/-- Claim C8: `apply` returns the synchronous submission result — its
outcome is determined by the transport's acceptance of the message alone (no
reply is awaited) — and when the transport rejects the message, `apply`
fails with `SendError` and the bootstrap attempt aborts with that error
before `wait` is ever consulted. -/
theorem C8_apply_send_error (tr : Transport) (payload : List Nat)
    (addr : GlobalAddress) :
    (tr.accepts addr.locality_id (payload ++ encode addr) = true →
      big_boot_barrier.apply tr payload addr = Except.ok ()
      ∧ ∀ b : big_boot_barrier, bootstrapAttempt tr payload addr b = b.wait)
    ∧ (tr.accepts addr.locality_id (payload ++ encode addr) = false →
      big_boot_barrier.apply tr payload addr = Except.error BootError.SendError
      ∧ ∀ b : big_boot_barrier,
          bootstrapAttempt tr payload addr b = Except.error BootError.SendError) := by
  constructor
  · intro h
    constructor
    · rw [big_boot_barrier.apply, h]
      rfl
    · intro b
      rw [bootstrapAttempt, big_boot_barrier.apply, h]
      rfl
  · intro h
    constructor
    · rw [big_boot_barrier.apply, h]
      rfl
    · intro b
      rw [bootstrapAttempt, big_boot_barrier.apply, h]
      rfl

/-- Witness for C8 at a transport that rejects every message. -/
theorem C8_apply_send_error_witness :
    big_boot_barrier.apply ⟨fun _ _ => false⟩ [9] ⟨1, 2, 3⟩
      = Except.error BootError.SendError
    ∧ bootstrapAttempt ⟨fun _ _ => false⟩ [9] ⟨1, 2, 3⟩ (initBarrier 5)
      = Except.error BootError.SendError :=
  ⟨((C8_apply_send_error ⟨fun _ _ => false⟩ [9] ⟨1, 2, 3⟩).2 rfl).1,
    ((C8_apply_send_error ⟨fun _ _ => false⟩ [9] ⟨1, 2, 3⟩).2 rfl).2 (initBarrier 5)⟩

theorem registerLocality_fresh_lt (s : RootState) (lid : Nat)
    (a : GlobalAddress) (hfresh : ∀ p ∈ s.table, p.1 ≠ lid)
    (hne : s.barrier.counter + 1 ≠ s.barrier.expected_count) :
    (registerLocality s lid a).2
      = { s with
          barrier := { s.barrier with counter := s.barrier.counter + 1 }
          table := s.table ++ [(lid, a)] } := by
  have hany : s.table.any (fun p => p.1 == lid) = false := by
    simp only [List.any_eq_false]
    intro p hp
    simpa using hfresh p hp
  rw [registerLocality, hany, if_neg Bool.false_ne_true]
  dsimp only
  rw [if_neg hne]

theorem registerLocality_fresh_eq (s : RootState) (lid : Nat)
    (a : GlobalAddress) (hfresh : ∀ p ∈ s.table, p.1 ≠ lid)
    (heq : s.barrier.counter + 1 = s.barrier.expected_count) :
    (registerLocality s lid a).2
      = { barrier := big_boot_barrier.notify
            { s.barrier with counter := s.barrier.counter + 1 },
          table := s.table ++ [(lid, a)],
          acks := (s.table ++ [(lid, a)]).map Prod.fst } := by
  have hany : s.table.any (fun p => p.1 == lid) = false := by
    simp only [List.any_eq_false]
    intro p hp
    simpa using hfresh p hp
  rw [registerLocality, hany, if_neg Bool.false_ne_true]
  dsimp only
  rw [if_pos heq]

theorem runRegs_below (regs : List (Nat × GlobalAddress)) :
    ∀ s : RootState, (regs.map Prod.fst).Nodup →
    (∀ r ∈ regs, ∀ p ∈ s.table, p.1 ≠ r.1) →
    s.barrier.counter + regs.length < s.barrier.expected_count →
    (runRegs s regs).barrier.connected = s.barrier.connected
    ∧ (runRegs s regs).barrier.counter = s.barrier.counter + regs.length
    ∧ (runRegs s regs).barrier.expected_count = s.barrier.expected_count
    ∧ (runRegs s regs).table = s.table ++ regs
    ∧ (runRegs s regs).acks = s.acks := by
  induction regs with
  | nil =>
    intro s _ _ _
    exact ⟨rfl, rfl, rfl, by simp [runRegs], rfl⟩
  | cons r rest ih =>
    intro s hnodup hfresh hlt
    rw [List.map_cons, List.nodup_cons] at hnodup
    have hf1 : ∀ p ∈ s.table, p.1 ≠ r.1 := fun p hp =>
      hfresh r (List.mem_cons_self r rest) p hp
    have hlen : (r :: rest).length = rest.length + 1 := rfl
    have hne : s.barrier.counter + 1 ≠ s.barrier.expected_count := by
      rw [hlen] at hlt; omega
    have hrun : runRegs s (r :: rest)
        = runRegs ((registerLocality s r.1 r.2).2) rest := rfl
    rw [hrun, registerLocality_fresh_lt s r.1 r.2 hf1 hne]
    have hfresh2 : ∀ q ∈ rest, ∀ p ∈ s.table ++ [(r.1, r.2)], p.1 ≠ q.1 := by
      intro q hq p hp
      rcases List.mem_append.mp hp with h | h
      · exact hfresh q (List.mem_cons_of_mem r hq) p h
      · have hp2 : p = (r.1, r.2) := by simpa using h
        have : q.1 ∈ rest.map Prod.fst := List.mem_map_of_mem Prod.fst hq
        intro hcon
        rw [hp2] at hcon
        exact hnodup.1 (hcon ▸ this)
    have hlt2 : s.barrier.counter + 1 + rest.length
        < s.barrier.expected_count := by
      rw [hlen] at hlt; omega
    obtain ⟨c1, c2, c3, c4, c5⟩ :=
      ih (RootState.mk { s.barrier with counter := s.barrier.counter + 1 }
        (s.table ++ [(r.1, r.2)]) s.acks) hnodup.2 hfresh2 hlt2
    refine ⟨c1.trans rfl, ?_, c3.trans rfl, ?_, c5⟩
    · rw [c2]
      show s.barrier.counter + 1 + rest.length
        = s.barrier.counter + (r :: rest).length
      rw [hlen]
      omega
    · rw [c4]
      show s.table ++ [(r.1, r.2)] ++ rest = s.table ++ r :: rest
      rw [List.append_assoc, List.singleton_append]

theorem runRegs_reach (regs : List (Nat × GlobalAddress)) :
    ∀ s : RootState, (regs.map Prod.fst).Nodup →
    (∀ r ∈ regs, ∀ p ∈ s.table, p.1 ≠ r.1) →
    regs ≠ [] →
    s.barrier.counter + regs.length = s.barrier.expected_count →
    (runRegs s regs).barrier.connected = true
    ∧ (runRegs s regs).table = s.table ++ regs
    ∧ (runRegs s regs).acks = (s.table ++ regs).map Prod.fst := by
  induction regs with
  | nil =>
    intro s _ _ hne _
    exact absurd rfl hne
  | cons r rest ih =>
    intro s hnodup hfresh _ hcount
    rw [List.map_cons, List.nodup_cons] at hnodup
    have hf1 : ∀ p ∈ s.table, p.1 ≠ r.1 := fun p hp =>
      hfresh r (List.mem_cons_self r rest) p hp
    cases rest with
    | nil =>
      have heq : s.barrier.counter + 1 = s.barrier.expected_count := by
        simpa using hcount
      have hrun : runRegs s [r] = (registerLocality s r.1 r.2).2 := rfl
      rw [hrun, registerLocality_fresh_eq s r.1 r.2 hf1 heq]
      refine ⟨notify_connected_of_ge _ ?_, rfl, rfl⟩
      show s.barrier.expected_count ≤ s.barrier.counter + 1
      omega
    | cons r2 rest2 =>
      have hlen : (r :: r2 :: rest2).length = (r2 :: rest2).length + 1 := rfl
      have hne : s.barrier.counter + 1 ≠ s.barrier.expected_count := by
        rw [hlen] at hcount
        have : 1 ≤ (r2 :: rest2).length := by simp
        omega
      have hrun : runRegs s (r :: r2 :: rest2)
          = runRegs ((registerLocality s r.1 r.2).2) (r2 :: rest2) := rfl
      rw [hrun, registerLocality_fresh_lt s r.1 r.2 hf1 hne]
      have hfresh2 : ∀ q ∈ r2 :: rest2,
          ∀ p ∈ s.table ++ [(r.1, r.2)], p.1 ≠ q.1 := by
        intro q hq p hp
        rcases List.mem_append.mp hp with h | h
        · exact hfresh q (List.mem_cons_of_mem r hq) p h
        · have hp2 : p = (r.1, r.2) := by simpa using h
          have : q.1 ∈ (r2 :: rest2).map Prod.fst :=
            List.mem_map_of_mem Prod.fst hq
          intro hcon
          rw [hp2] at hcon
          exact hnodup.1 (hcon ▸ this)
      have hcount2 : s.barrier.counter + 1 + (r2 :: rest2).length
          = s.barrier.expected_count := by
        rw [hlen] at hcount; omega
      obtain ⟨c1, c2, c3⟩ :=
        ih (RootState.mk { s.barrier with counter := s.barrier.counter + 1 }
          (s.table ++ [(r.1, r.2)]) s.acks) hnodup.2 hfresh2 (by simp) hcount2
      refine ⟨c1, ?_, ?_⟩
      · rw [c2]
        show s.table ++ [(r.1, r.2)] ++ r2 :: rest2
          = s.table ++ r :: r2 :: rest2
        rw [List.append_assoc, List.singleton_append]
      · rw [c3]
        show (s.table ++ [(r.1, r.2)] ++ r2 :: rest2).map Prod.fst
          = (s.table ++ r :: r2 :: rest2).map Prod.fst
        rw [List.append_assoc, List.singleton_append]

/-- Claim C6: the root's barrier transitions to CONNECTED exactly at the
`expected_count`-th distinct successful registration and not before: after
fewer distinct registrations the root's waiter is still blocked, and at
exactly `expected_count` distinct registrations the barrier is CONNECTED,
the waiter is released, and acknowledgements are scheduled to every
registered subordinate. -/
theorem C6_root_threshold (e : Nat) (he : 1 ≤ e)
    (regs : List (Nat × GlobalAddress))
    (hnodup : (regs.map Prod.fst).Nodup) :
    (regs.length < e →
      (runRegs (initRoot e) regs).barrier.connected = false
      ∧ (runRegs (initRoot e) regs).barrier.wait
          = Except.error BootError.BootstrapTimeout)
    ∧ (regs.length = e →
      (runRegs (initRoot e) regs).barrier.connected = true
      ∧ (runRegs (initRoot e) regs).barrier.wait = Except.ok ()
      ∧ (runRegs (initRoot e) regs).table = regs
      ∧ (runRegs (initRoot e) regs).acks = regs.map Prod.fst) := by
  constructor
  · intro hlt
    have h := runRegs_below regs (initRoot e) hnodup
      (by intro r _ p hp; simp [initRoot] at hp)
      (by simpa [initRoot, initBarrier] using hlt)
    have hc : (runRegs (initRoot e) regs).barrier.connected = false := h.1
    exact ⟨hc, by rw [big_boot_barrier.wait, hc]; rfl⟩
  · intro heq
    have hne : regs ≠ [] := by
      intro h
      rw [h] at heq
      simp at heq
      omega
    have h := runRegs_reach regs (initRoot e) hnodup
      (by intro r _ p hp; simp [initRoot] at hp)
      hne (by simpa [initRoot, initBarrier] using heq)
    refine ⟨h.1, by rw [big_boot_barrier.wait, h.1]; rfl, ?_, ?_⟩
    · have := h.2.1
      simpa [initRoot] using this
    · have := h.2.2
      simpa [initRoot] using this

/-- Witness for C6: `expected_count = 2`, two distinct registrations connect
the root and schedule acknowledgements to both subordinates. -/
theorem C6_root_threshold_witness :
    (runRegs (initRoot 2) [(1, ⟨1, 0, 0⟩), (2, ⟨2, 0, 0⟩)]).barrier.connected
      = true
    ∧ (runRegs (initRoot 2) [(1, ⟨1, 0, 0⟩), (2, ⟨2, 0, 0⟩)]).acks = [1, 2] :=
  ⟨((C6_root_threshold 2 (by decide)
      [(1, ⟨1, 0, 0⟩), (2, ⟨2, 0, 0⟩)] (by decide)).2 rfl).1,
    by
      have h := ((C6_root_threshold 2 (by decide)
        [(1, ⟨1, 0, 0⟩), (2, ⟨2, 0, 0⟩)] (by decide)).2 rfl).2.2.2
      simpa using h⟩

/-- Claim C2: if the bootstrap timeout elapses while `connected` is still
false, `wait` fails with `BootstrapTimeout` rather than blocking forever; in
particular, on the root with `expected_count = 5` and only 4 distinct
registrations delivered before the timeout, `wait` returns
`BootstrapTimeout`. -/
theorem C2_wait_timeout (b : big_boot_barrier) (hb : b.connected = false)
    (regs : List (Nat × GlobalAddress)) (hnodup : (regs.map Prod.fst).Nodup)
    (hlen : regs.length = 4) :
    b.wait = Except.error BootError.BootstrapTimeout
    ∧ (runRegs (initRoot 5) regs).barrier.wait
        = Except.error BootError.BootstrapTimeout := by
  refine ⟨by rw [big_boot_barrier.wait, hb]; rfl, ?_⟩
  have h := runRegs_below regs (initRoot 5) hnodup
    (by intro r _ p hp; simp [initRoot] at hp)
    (by simp [initRoot, initBarrier]; omega)
  rw [big_boot_barrier.wait, h.1]
  rfl

/-- Witness for C2: 4 distinct registrations out of 5 expected. -/
theorem C2_wait_timeout_witness :
    (initBarrier 5).wait = Except.error BootError.BootstrapTimeout
    ∧ (runRegs (initRoot 5)
        [(1, ⟨1, 0, 0⟩), (2, ⟨2, 0, 0⟩), (3, ⟨3, 0, 0⟩),
          (4, ⟨4, 0, 0⟩)]).barrier.wait
        = Except.error BootError.BootstrapTimeout :=
  C2_wait_timeout (initBarrier 5) rfl
    [(1, ⟨1, 0, 0⟩), (2, ⟨2, 0, 0⟩), (3, ⟨3, 0, 0⟩), (4, ⟨4, 0, 0⟩)]
    (by decide) rfl

theorem registerLocality_snd_barrier (t : RootState) (lid : Nat)
    (a : GlobalAddress) :
    (registerLocality t lid a).2.barrier = t.barrier
    ∨ (registerLocality t lid a).2.barrier
        = { t.barrier with counter := t.barrier.counter + 1 }
    ∨ (registerLocality t lid a).2.barrier
        = big_boot_barrier.notify
            { t.barrier with counter := t.barrier.counter + 1 } := by
  by_cases hany : t.table.any (fun p => p.1 == lid) = true
  · left
    rw [registerLocality, if_pos hany]
  · have hany2 : t.table.any (fun p => p.1 == lid) = false := by
      cases h2 : t.table.any (fun p => p.1 == lid) with
      | false => rfl
      | true => exact absurd h2 hany
    rw [registerLocality, hany2, if_neg Bool.false_ne_true]
    dsimp only
    by_cases htrig : t.barrier.counter + 1 = t.barrier.expected_count
    · right; right
      rw [if_pos htrig]
    · right; left
      rw [if_neg htrig]

theorem step_connected_mono (s : RootState) (op : BootOp)
    (h : s.barrier.connected = true) :
    (stepOp s op).barrier.connected = true := by
  cases op with
  | register lid a =>
    show (registerLocality s lid a).2.barrier.connected = true
    rcases registerLocality_snd_barrier s lid a with hb | hb | hb
    · rw [hb]; exact h
    · rw [hb]; exact h
    · rw [hb]; exact notify_connected_of_connected _ h
  | notify => exact notify_connected_of_connected _ h
  | applyOp accepted => exact h
  | waitOp => exact h

theorem runOps_connected_mono (ops : List BootOp) :
    ∀ s : RootState, s.barrier.connected = true →
    (runOps s ops).barrier.connected = true := by
  induction ops with
  | nil => intro s h; exact h
  | cons op rest ih =>
    intro s h
    exact ih (stepOp s op) (step_connected_mono s op h)

theorem exists_flip (ops : List BootOp) :
    ∀ s : RootState, s.barrier.connected = false →
    (runOps s ops).barrier.connected = true →
    ∃ i : Nat, i < ops.length
      ∧ (runOps s (ops.take i)).barrier.connected = false
      ∧ (runOps s (ops.take (i + 1))).barrier.connected = true := by
  induction ops with
  | nil =>
    intro s h0 h1
    have h1' : s.barrier.connected = true := h1
    rw [h0] at h1'
    exact absurd h1' (by simp)
  | cons op rest ih =>
    intro s h0 h1
    by_cases hc : (stepOp s op).barrier.connected = true
    · exact ⟨0, by simp, h0, hc⟩
    · have hc2 : (stepOp s op).barrier.connected = false := by
        simpa using hc
      have h1' : (runOps (stepOp s op) rest).barrier.connected = true := h1
      obtain ⟨i, hi, ha, hb⟩ := ih (stepOp s op) hc2 h1'
      exact ⟨i + 1, by simpa using hi, ha, hb⟩

theorem runOps_take_succ (s : RootState) (ops : List BootOp) (i : Nat)
    (h : i < ops.length) :
    runOps s (ops.take (i + 1)) = stepOp (runOps s (ops.take i)) ops[i] := by
  induction ops generalizing s i with
  | nil => simp at h
  | cons op rest ih =>
    cases i with
    | zero => rfl
    | succ j =>
      have hj : j < rest.length := by simpa using h
      exact ih (stepOp s op) j hj

theorem flip_is_notify (t : RootState) (op : BootOp)
    (h0 : t.barrier.connected = false)
    (h1 : (stepOp t op).barrier.connected = true) :
    ∃ bmid : big_boot_barrier, bmid.connected = false
      ∧ (stepOp t op).barrier = bmid.notify := by
  cases op with
  | notify => exact ⟨t.barrier, h0, rfl⟩
  | applyOp accepted =>
    have h1' : t.barrier.connected = true := h1
    rw [h0] at h1'
    exact absurd h1' (by simp)
  | waitOp =>
    have h1' : t.barrier.connected = true := h1
    rw [h0] at h1'
    exact absurd h1' (by simp)
  | register lid a =>
    have h1' : (registerLocality t lid a).2.barrier.connected = true := h1
    rcases registerLocality_snd_barrier t lid a with hb | hb | hb
    · rw [hb, h0] at h1'
      exact absurd h1' (by simp)
    · rw [hb] at h1'
      have h1c : t.barrier.connected = true := h1'
      rw [h0] at h1c
      exact absurd h1c (by simp)
    · refine ⟨{ t.barrier with counter := t.barrier.counter + 1 }, h0, ?_⟩
      show (registerLocality t lid a).2.barrier = _
      rw [hb]

/-- Claim C1: `wait` on a barrier returns successfully only when `connected`
is true; over any run of operations from an unconnected start, a successful
`wait` at the end implies some earlier step flipped `connected` from false
to true, and that step acted on the barrier as an application of `notify`
to a then-unconnected barrier state. -/
theorem C1_wait_after_notify (s : RootState) (ops : List BootOp)
    (h0 : s.barrier.connected = false)
    (hw : (runOps s ops).barrier.wait = Except.ok ()) :
    (runOps s ops).barrier.connected = true
    ∧ ∃ i : Nat, i < ops.length
      ∧ (runOps s (ops.take i)).barrier.connected = false
      ∧ (runOps s (ops.take (i + 1))).barrier.connected = true
      ∧ ∃ bmid : big_boot_barrier, bmid.connected = false
        ∧ (runOps s (ops.take (i + 1))).barrier = bmid.notify := by
  have hconn : (runOps s ops).barrier.connected = true := by
    by_contra hc
    have hc2 : (runOps s ops).barrier.connected = false := by simpa using hc
    rw [big_boot_barrier.wait, hc2, if_neg Bool.false_ne_true] at hw
    exact Except.noConfusion hw
  obtain ⟨i, hi, ha, hb⟩ := exists_flip ops s h0 hconn
  have hstep := runOps_take_succ s ops i hi
  have hb2 : (stepOp (runOps s (ops.take i)) ops[i]).barrier.connected
      = true := by
    rw [← hstep]
    exact hb
  obtain ⟨bmid, hbm1, hbm2⟩ :=
    flip_is_notify (runOps s (ops.take i)) ops[i] ha hb2
  exact ⟨hconn, i, hi, ha, hb, bmid, hbm1, by rw [hstep]; exact hbm2⟩

/-- Witness for C1: the root with `expected_count = 1` receives one
registration, which connects the barrier and releases `wait`. -/
theorem C1_wait_after_notify_witness :
    (runOps (initRoot 1) [BootOp.register 7 ⟨1, 2, 3⟩]).barrier.connected
      = true :=
  (C1_wait_after_notify (initRoot 1) [BootOp.register 7 ⟨1, 2, 3⟩] rfl rfl).1

theorem connTrace_eq_cons (s : RootState) (ops : List BootOp) :
    ∃ t : List Bool, connTrace s ops = s.barrier.connected :: t := by
  cases ops with
  | nil => exact ⟨[], rfl⟩
  | cons op rest => exact ⟨connTrace (stepOp s op) rest, rfl⟩

theorem connTrace_bounds (ops : List BootOp) :
    ∀ s : RootState,
    rises (connTrace s ops) ≤ 1
    ∧ falls (connTrace s ops) = 0
    ∧ (s.barrier.connected = true → rises (connTrace s ops) = 0) := by
  induction ops with
  | nil =>
    intro s
    exact ⟨by simp [connTrace, rises], by simp [connTrace, falls],
      fun _ => by simp [connTrace, rises]⟩
  | cons op rest ih =>
    intro s
    obtain ⟨i1, i2, i3⟩ := ih (stepOp s op)
    obtain ⟨t, ht⟩ := connTrace_eq_cons (stepOp s op) rest
    have hexp : connTrace s (op :: rest)
        = s.barrier.connected :: (stepOp s op).barrier.connected :: t := by
      show s.barrier.connected :: connTrace (stepOp s op) rest = _
      rw [ht]
    rw [hexp, rises, falls, ← ht]
    by_cases hs : s.barrier.connected = true
    · have hstep : (stepOp s op).barrier.connected = true :=
        step_connected_mono s op hs
      have hr0 : rises (connTrace (stepOp s op) rest) = 0 := i3 hstep
      refine ⟨?_, ?_, fun _ => ?_⟩
      · rw [hr0]
        simp [hs]
      · rw [i2]
        simp [hstep]
      · rw [hr0]
        simp [hs]
    · have hs2 : s.barrier.connected = false := by simpa using hs
      refine ⟨?_, ?_, fun hcon => absurd hcon hs⟩
      · by_cases hstep : (stepOp s op).barrier.connected = true
        · have hr0 : rises (connTrace (stepOp s op) rest) = 0 := i3 hstep
          rw [hr0]
          simp [hs2, hstep]
        · have hstep2 : (stepOp s op).barrier.connected = false := by
            simpa using hstep
          have : rises (connTrace (stepOp s op) rest) ≤ 1 := i1
          simp [hstep2]
          omega
      · rw [i2]
        simp [hs2]

/-- Claim C4: the barrier's `connected` flag is monotone over any sequence
of operations within one process lifetime: once true it is never reset to
false by any operation, and along the whole run it transitions from false
to true at most once. -/
theorem C4_connected_monotone (s : RootState) (ops : List BootOp) :
    (s.barrier.connected = true → (runOps s ops).barrier.connected = true)
    ∧ rises (connTrace s ops) ≤ 1
    ∧ falls (connTrace s ops) = 0 :=
  ⟨runOps_connected_mono ops s, (connTrace_bounds ops s).1,
    (connTrace_bounds ops s).2.1⟩

/-- Witness for C4 on a connected barrier and a `notify`, `wait` sequence. -/
theorem C4_connected_monotone_witness :
    (runOps ⟨⟨router_mode.bootstrap_root, runtime_mode.console, ⟨0, 0, 0⟩,
      true, 0, 2⟩, [], []⟩ [BootOp.notify, BootOp.waitOp]).barrier.connected
      = true
    ∧ rises (connTrace ⟨⟨router_mode.bootstrap_root, runtime_mode.console,
      ⟨0, 0, 0⟩, true, 0, 2⟩, [], []⟩ [BootOp.notify, BootOp.waitOp]) ≤ 1 :=
  ⟨(C4_connected_monotone _ _).1 rfl, (C4_connected_monotone _ _).2.1⟩

theorem swapIdx_length (l : List α) (i j : Nat) :
    (swapIdx l i j).length = l.length := by
  unfold swapIdx
  split
  · simp
  · rfl

theorem swapIdx_getElem?_left (l : List α) (i j : Nat) (hi : i < l.length)
    (hj : j < l.length) (hne : i ≠ j) : (swapIdx l i j)[i]? = l[j]? := by
  unfold swapIdx
  rw [List.getElem?_eq_getElem hi, List.getElem?_eq_getElem hj]
  dsimp only
  rw [List.getElem?_set_ne (Ne.symm hne), List.getElem?_set_self hi]

theorem swapIdx_getElem?_right (l : List α) (i j : Nat) (hi : i < l.length)
    (hj : j < l.length) : (swapIdx l i j)[j]? = l[i]? := by
  unfold swapIdx
  rw [List.getElem?_eq_getElem hi, List.getElem?_eq_getElem hj]
  dsimp only
  rw [List.getElem?_set_self (by simpa using hj)]

theorem swapIdx_getElem?_other (l : List α) (i j k : Nat) (hki : k ≠ i)
    (hkj : k ≠ j) : (swapIdx l i j)[k]? = l[k]? := by
  unfold swapIdx
  split
  · rw [List.getElem?_set_ne (Ne.symm hkj), List.getElem?_set_ne (Ne.symm hki)]
  · rfl

theorem revCopyLoop_eq (src : List α) (d : α) :
    ∀ (iter : Nat) (out : List α), iter ≤ src.length →
    revCopyLoop src d iter out = out ++ (src.take iter).reverse := by
  intro iter
  induction iter with
  | zero =>
    intro out _
    simp [revCopyLoop]
  | succ n ihn =>
    intro out h
    have hn : n < src.length := by omega
    rw [revCopyLoop, ihn _ (by omega), List.take_succ,
      List.getElem?_eq_getElem hn, List.getD_eq_getElem src d hn]
    simp
    have hts : List.take (n + 1) src = List.take n src ++ [src[n]] := by
      rw [List.take_succ, List.getElem?_eq_getElem hn]
      rfl
    rw [hts, List.reverse_append]
    rfl

/-- Claim C10: for a source range of length `n`, `sequential_reverse_copy`
writes exactly `n` values to the destination, the destination at position
`i` receives the source element at position `n - 1 - i`, and the returned
iterator pair is `{last, dest advanced by n}`. -/
theorem C10_sequential_reverse_copy (src : List α) (d : α) :
    (sequential_reverse_copy src d).1 = src.reverse
    ∧ (sequential_reverse_copy src d).1.length = src.length
    ∧ (∀ i : Nat, i < src.length →
        (sequential_reverse_copy src d).1[i]? = src[src.length - 1 - i]?)
    ∧ (sequential_reverse_copy src d).2.1 = src.length
    ∧ (sequential_reverse_copy src d).2.2 = src.length := by
  have hout : revCopyLoop src d src.length [] = src.reverse := by
    rw [revCopyLoop_eq src d src.length [] (le_refl _), List.take_length]
    rfl
  refine ⟨hout, ?_, ?_, rfl, ?_⟩
  · show (revCopyLoop src d src.length []).length = src.length
    rw [hout, List.length_reverse]
  · intro i hi
    show (revCopyLoop src d src.length [])[i]? = src[src.length - 1 - i]?
    rw [hout, List.getElem?_reverse hi]
  · show (revCopyLoop src d src.length []).length = src.length
    rw [hout, List.length_reverse]

/-- Witness for C10 on the source range `[10, 20, 30]`. -/
theorem C10_sequential_reverse_copy_witness :
    (sequential_reverse_copy [10, 20, 30] 0).1 = [30, 20, 10]
    ∧ (sequential_reverse_copy [10, 20, 30] 0).1[0]? = some 30
    ∧ (sequential_reverse_copy [10, 20, 30] 0).2.1 = 3
    ∧ (sequential_reverse_copy [10, 20, 30] 0).2.2 = 3 := by
  have h := C10_sequential_reverse_copy [10, 20, 30] 0
  exact ⟨by rw [h.1]; rfl, by rw [h.2.2.1 0 (by decide)]; rfl,
    h.2.2.2.1, h.2.2.2.2⟩

theorem stdReverseLoop_getElem?_fuel (m : Nat) :
    ∀ (l : List α) (i j : Nat), j - i ≤ m → j ≤ l.length →
    ∀ k : Nat, (stdReverseLoop l i j)[k]? =
      if i ≤ k ∧ k < j then l[i + j - 1 - k]? else l[k]? := by
  induction m with
  | zero =>
    intro l i j hm _ k
    rw [stdReverseLoop, if_neg (by omega : ¬ i + 1 < j)]
    by_cases hcond : i ≤ k ∧ k < j
    · rw [if_pos hcond]
      have hidx : i + j - 1 - k = k := by omega
      rw [hidx]
    · rw [if_neg hcond]
  | succ m ihm =>
    intro l i j hm hj k
    rw [stdReverseLoop]
    by_cases h : i + 1 < j
    · rw [if_pos h]
      have hi : i < l.length := by omega
      have hj1 : j - 1 < l.length := by omega
      have hlen : j - 1 ≤ (swapIdx l i (j - 1)).length := by
        rw [swapIdx_length]; omega
      have hrec := ihm (swapIdx l i (j - 1)) (i + 1) (j - 1) (by omega) hlen k
      rw [hrec]
      by_cases hk1 : i + 1 ≤ k ∧ k < j - 1
      · rw [if_pos hk1, if_pos (by omega : i ≤ k ∧ k < j)]
        have hidx : i + 1 + (j - 1) - 1 - k = i + j - 1 - k := by omega
        rw [hidx]
        exact swapIdx_getElem?_other l i (j - 1) (i + j - 1 - k)
          (by omega) (by omega)
      · rw [if_neg hk1]
        by_cases hki : k = i
        · rw [if_pos (by omega : i ≤ k ∧ k < j)]
          have hq : (swapIdx l i (j - 1))[k]? = l[j - 1]? := by
            rw [hki]
            exact swapIdx_getElem?_left l i (j - 1) hi hj1 (by omega)
          rw [hq]
          have hidx : i + j - 1 - k = j - 1 := by omega
          rw [hidx]
        · by_cases hkj : k = j - 1
          · rw [if_pos (by omega : i ≤ k ∧ k < j)]
            have hq : (swapIdx l i (j - 1))[k]? = l[i]? := by
              rw [hkj]
              exact swapIdx_getElem?_right l i (j - 1) hi hj1
            rw [hq]
            have hidx : i + j - 1 - k = i := by omega
            rw [hidx]
          · rw [if_neg (by omega : ¬ (i ≤ k ∧ k < j))]
            exact swapIdx_getElem?_other l i (j - 1) k hki hkj
    · rw [if_neg h]
      by_cases hcond : i ≤ k ∧ k < j
      · rw [if_pos hcond]
        have hidx : i + j - 1 - k = k := by omega
        rw [hidx]
      · rw [if_neg hcond]

theorem stdReverse_getElem? (l : List α) (k : Nat) :
    (stdReverse l)[k]? =
      if k < l.length then l[l.length - 1 - k]? else l[k]? := by
  rw [stdReverse,
    stdReverseLoop_getElem?_fuel l.length l 0 l.length (by omega) (le_refl _) k]
  by_cases hk : k < l.length
  · rw [if_pos ⟨Nat.zero_le k, hk⟩, if_pos hk]
    have hidx : 0 + l.length - 1 - k = l.length - 1 - k := by omega
    rw [hidx]
  · rw [if_neg (by omega), if_neg hk]

theorem stdReverse_eq_reverse (l : List α) : stdReverse l = l.reverse := by
  apply List.ext_getElem?
  intro k
  rw [stdReverse_getElem? l k]
  by_cases hk : k < l.length
  · rw [if_pos hk, List.getElem?_reverse hk]
  · rw [if_neg hk, List.getElem?_eq_none (by omega),
      List.getElem?_eq_none (by rw [List.length_reverse]; omega)]

theorem parReverseLoop_getElem? :
    ∀ (k : Nat) (l : List α) (i : Nat), i + k ≤ l.length / 2 →
    ∀ m : Nat, (parReverseLoop l i k)[m]? =
      if (i ≤ m ∧ m < i + k)
          ∨ (l.length - i - k ≤ m ∧ m < l.length - i) then
        l[l.length - 1 - m]?
      else l[m]? := by
  intro k
  induction k with
  | zero =>
    intro l i _ m
    rw [parReverseLoop, if_neg (by omega)]
  | succ k ihk =>
    intro l i h m
    have hdm := Nat.div_add_mod l.length 2
    have hm2 : l.length % 2 < 2 := Nat.mod_lt _ (by omega)
    have hi : i < l.length := by omega
    have hni : l.length - 1 - i < l.length := by omega
    have hne : i ≠ l.length - 1 - i := by omega
    rw [parReverseLoop]
    have hlen : (parSwapAt l i).length = l.length := by
      rw [parSwapAt, swapIdx_length]
    have hrec := ihk (parSwapAt l i) (i + 1) (by rw [hlen]; omega) m
    rw [hrec, hlen]
    by_cases hmid : (i + 1 ≤ m ∧ m < i + 1 + k)
        ∨ (l.length - (i + 1) - k ≤ m ∧ m < l.length - (i + 1))
    · rw [if_pos hmid, if_pos (by omega), parSwapAt]
      exact swapIdx_getElem?_other l i (l.length - 1 - i) (l.length - 1 - m)
        (by omega) (by omega)
    · rw [if_neg hmid]
      by_cases hmi : m = i
      · rw [if_pos (by omega), parSwapAt]
        have hq : (swapIdx l i (l.length - 1 - i))[m]? = l[l.length - 1 - i]? := by
          rw [hmi]
          exact swapIdx_getElem?_left l i (l.length - 1 - i) hi hni hne
        rw [hq]
        have hidx : l.length - 1 - m = l.length - 1 - i := by omega
        rw [hidx]
      · by_cases hmni : m = l.length - 1 - i
        · rw [if_pos (by omega), parSwapAt]
          have hq : (swapIdx l i (l.length - 1 - i))[m]? = l[i]? := by
            rw [hmni]
            exact swapIdx_getElem?_right l i (l.length - 1 - i) hi hni
          rw [hq]
          have hidx : l.length - 1 - m = i := by omega
          rw [hidx]
        · rw [if_neg (by omega), parSwapAt]
          exact swapIdx_getElem?_other l i (l.length - 1 - i) m hmi hmni

theorem parReverse_eq_reverse (l : List α) : parReverse l = l.reverse := by
  apply List.ext_getElem?
  intro m
  rw [parReverse, parReverseLoop_getElem? (l.length / 2) l 0 (by omega) m]
  have hdm := Nat.div_add_mod l.length 2
  have hm2 : l.length % 2 < 2 := Nat.mod_lt _ (by omega)
  by_cases hm : m < l.length
  · by_cases hcond : (0 ≤ m ∧ m < 0 + l.length / 2)
        ∨ (l.length - 0 - l.length / 2 ≤ m ∧ m < l.length - 0)
    · rw [if_pos hcond, List.getElem?_reverse hm]
    · rw [if_neg hcond, List.getElem?_reverse hm]
      have hidx : l.length - 1 - m = m := by omega
      rw [hidx]
  · rw [if_neg (by omega), List.getElem?_eq_none (by omega),
      List.getElem?_eq_none (by rw [List.length_reverse]; omega)]

/-- Claim C9: `reverse` reverses the range in place on both execution-policy
paths — the element originally at position `i` ends at position
`n - 1 - i`, the sequential path is exactly `std::reverse`, and the
parallel path computes the same contents — and it returns the iterator
`last`. -/
theorem C9_reverse (l : List α) :
    (reverseSequential l).1 = l.reverse
    ∧ (reverseParallel l).1 = l.reverse
    ∧ (∀ i : Nat, i < l.length →
        (reverseSequential l).1[l.length - 1 - i]? = l[i]?)
    ∧ (reverseSequential l).2 = l.length
    ∧ (reverseParallel l).2 = l.length
    ∧ reverseSequential l = reverseParallel l := by
  have hs : stdReverse l = l.reverse := stdReverse_eq_reverse l
  have hp : parReverse l = l.reverse := parReverse_eq_reverse l
  refine ⟨hs, hp, ?_, rfl, rfl, ?_⟩
  · intro i hi
    show (stdReverse l)[l.length - 1 - i]? = l[i]?
    rw [hs, List.getElem?_reverse (by omega)]
    have hidx : l.length - 1 - (l.length - 1 - i) = i := by omega
    rw [hidx]
  · show (stdReverse l, l.length) = (parReverse l, l.length)
    rw [hs, hp]

/-- Witness for C9 on the range `[1, 2, 3, 4]`. -/
theorem C9_reverse_witness :
    (reverseSequential [1, 2, 3, 4]).1 = [4, 3, 2, 1]
    ∧ (reverseParallel [1, 2, 3, 4]).1 = [4, 3, 2, 1]
    ∧ (reverseSequential [1, 2, 3, 4]).1[3]? = some 1
    ∧ (reverseSequential [1, 2, 3, 4]).2 = 4 := by
  have h := C9_reverse [1, 2, 3, 4]
  exact ⟨by rw [h.1]; rfl, by rw [h.2.1]; rfl, h.2.2.1 0 (by decide),
    h.2.2.2.1⟩
